import Mathlib

/-!
# Verification of the alligotor configuration-merge engine

Shallow embedding of `alligotor.go` (package `alligotor`): a configuration
collector that populates a settings struct by merging defaults, config
files, environment variables and command-line flags in a fixed precedence
order.

Conventions of the embedding:
* Pure Go functions become Lean functions; Go's in-place mutation of the
  settings struct becomes explicit value passing (each source reader takes
  the field list and returns the updated field list in `Except`).
* Go machine integers are modelled as `Int` with explicit two's-complement
  wrapping where the reflect layer truncates.
* External collaborators that the repository uses as opaque services
  (the `pflag` argument parser, the `mapstructure` decoder, the process
  environment, the file system and the YAML/JSON decoders) and repository
  code not present in the provided source (the `ciMap` type) are modelled
  from the specification's description; each such definition carries a
  doc comment starting with `Modelled from the spec:`.
* Everything else is translated directly from `src/alligotor.go`; line
  references in doc comments point into that file.
-/

namespace Alligotor

/-- Decidable equality for `Except`, used to evaluate concrete runs of the
fallible operations below. -/
instance {ε α : Type} [DecidableEq ε] [DecidableEq α] : DecidableEq (Except ε α) :=
  fun x y =>
    match x, y with
    | .ok a, .ok b =>
      if h : a = b then .isTrue (by rw [h])
      else .isFalse (by intro he; cases he; exact h rfl)
    | .error a, .error b =>
      if h : a = b then .isTrue (by rw [h])
      else .isFalse (by intro he; cases he; exact h rfl)
    | .ok _, .error _ => .isFalse (by intro h; cases h)
    | .error _, .ok _ => .isFalse (by intro h; cases h)

/-! ## Go string primitives used by the source

Implemented structurally over character lists (rather than through the
standard library's substring-based versions) so that concrete runs reduce
inside the kernel. -/

/-- Whether `l` starts with `p`. -/
def listStartsWith : List Char → List Char → Bool
  | _, [] => true
  | [], _ :: _ => false
  | a :: as, b :: bs => a = b && listStartsWith as bs

/-- Worker for `goSplit`: `acc` is the current chunk reversed, and the
fuel is always at least the length of the remaining input plus one, so
the zero-fuel branch is unreachable. -/
def goSplitAux (sep : List Char) : Nat → List Char → List Char → List (List Char)
  | _, acc, [] => [acc.reverse]
  | 0, acc, l => [acc.reverse ++ l]
  | fuel + 1, acc, c :: rest =>
    if listStartsWith (c :: rest) sep then
      acc.reverse :: goSplitAux sep fuel [] (List.drop (sep.length - 1) rest)
    else
      goSplitAux sep fuel (c :: acc) rest

/-- Go's `strings.Split(s, sep)` for a nonempty separator; with an empty
separator the uses in this package do not occur, so the input is
returned whole. `Split("", sep)` is `[""]`, as in Go. -/
def goSplit (s sep : String) : List String :=
  if sep.data.isEmpty then [s]
  else (goSplitAux sep.data (s.data.length + 1) [] s.data).map fun l => ⟨l⟩

/-- Go's `strings.SplitN(s, sep, 2)`: split at the first occurrence of
`sep` only; the result has one element when `sep` does not occur. -/
def splitN2 (s sep : String) : List String :=
  match goSplit s sep with
  | [] => [s]
  | [a] => [a]
  | a :: rest => [a, String.intercalate sep rest]

/-- The ASCII part of Go's `unicode.IsSpace`, which is what
`strings.TrimSpace` discards at both ends. -/
def isSpaceGo (c : Char) : Bool :=
  c = ' ' || c = '\t' || c = '\n' || c = '\x0b' || c = '\x0c' || c = '\r'

/-- Go's `strings.TrimSpace` (restricted to ASCII white space). -/
def goTrim (s : String) : String :=
  ⟨((s.data.dropWhile isSpaceGo).reverse.dropWhile isSpaceGo).reverse⟩

/-- Go's `strings.ToUpper` (character-wise; the configuration names in
play are ASCII). -/
def goToUpper (s : String) : String := ⟨s.data.map Char.toUpper⟩

/-- Go's `strings.ToLower` (character-wise). -/
def goToLower (s : String) : String := ⟨s.data.map Char.toLower⟩

/-- Go's `strconv.ParseBool`: the canonical boolean string forms. -/
def parseBool : String → Option Bool
  | "1" | "t" | "T" | "TRUE" | "true" | "True" => some true
  | "0" | "f" | "F" | "FALSE" | "false" | "False" => some false
  | _ => none

/-- Decimal digit-string value: `some n` when the character list is a
nonempty run of ASCII digits, otherwise `none`. -/
def digitsVal (cs : List Char) : Option Nat :=
  if cs ≠ [] ∧ cs.all Char.isDigit then
    some (cs.foldl (fun a c => 10 * a + (c.toNat - 48)) 0)
  else
    none

/-- Go's `strconv.ParseInt(s, 10, 0)` as called in `setFromString`
(line 475): base-10 parse with an optional sign. `bitSize` 0 means the
platform `int`, 64 bits on the standard targets, so the range check is
against the 64-bit signed range; both syntax and range errors collapse to
`none` (the caller returns any error unchanged). -/
def parseInt64 (s : String) : Option Int :=
  match s.data with
  | [] => none
  | c :: rest =>
    let signDigits : Bool × List Char :=
      if c = '-' then (true, rest)
      else if c = '+' then (false, rest)
      else (false, c :: rest)
    match digitsVal signDigits.2 with
    | none => none
    | some n =>
      let v : Int := if signDigits.1 then -(n : Int) else (n : Int)
      if v < -(2 ^ 63) ∨ 2 ^ 63 - 1 < v then none else some v

/-- Two's-complement wrap of an integer into a signed width of `w` bits,
as performed by `reflect.Value.SetInt` when the target type is narrower
than the parsed 64-bit value (the reflect layer stores `int8(x)` etc.
without any range check). -/
def wrapSigned (w : Nat) (x : Int) : Int :=
  let m := x % (2 ^ w : Int)
  if m < 2 ^ (w - 1) then m else m - 2 ^ w

/-! ## Data model (`field`, `parameterConfig`, `flag`, configs) -/

/-- `flag` struct (lines 147-150): parsed `flag=` spec with an optional
long default name and an optional one-character short name. -/
structure flag where
  DefaultName : String := ""
  ShortName : String := ""
deriving DecidableEq, Repr

/-- `parameterConfig` struct (lines 141-145): parsed per-field `config`
struct tag. -/
structure parameterConfig where
  DefaultFileField : String := ""
  DefaultEnvName : String := ""
  Flag : flag := {}
deriving DecidableEq, Repr

/-- The static Go types of settings fields covered by this embedding:
the signed-integer family (`int w` with the bit width), `string`, `bool`,
`[]string`, `map[string]string` and nested struct types (struct contents
are opaque here). -/
inductive GoType where
  | int (w : Nat)
  | string
  | bool
  | sslice
  | smap
  | goStruct
deriving DecidableEq, Repr

/-- A Go value of one of the modelled types. -/
inductive GoVal where
  | vint (w : Nat) (v : Int)
  | vstr (s : String)
  | vbool (b : Bool)
  | vslice (l : List String)
  | vmap (l : List (String × String))
  | vstruct
deriving DecidableEq, Repr

/-- `reflect.Zero` for the modelled types. -/
def zeroVal : GoType → GoVal
  | .int w => .vint w 0
  | .string => .vstr ""
  | .bool => .vbool false
  | .sslice => .vslice []
  | .smap => .vmap []
  | .goStruct => .vstruct

/-- The sentinel errors of the package (lines 21-28) together with the
anonymous errors returned by the parsing layers (`strconv` and
`mapstructure` errors are only ever propagated, never inspected). -/
inductive GoErr where
  | malformedFlagConfig
  | fileTypeNotSupported
  | pointerExpected
  | noFileFound
  | unsupportedType
  | cantSet
  | parseError
  | decodeError
deriving DecidableEq, Repr

/-- `field` struct (lines 130-135). `Value` in Go is a `reflect.Value`
binding into the settings struct; here it is split into the slot's
static type `ty`, its settability `canSet` and its current value
`Value`, passed functionally. -/
structure field where
  Base : List String
  Name : String
  canSet : Bool
  ty : GoType
  Value : GoVal
  Config : parameterConfig
deriving DecidableEq, Repr

instance : Inhabited field :=
  ⟨{ Base := [], Name := "", canSet := false, ty := .string,
     Value := .vstr "", Config := {} }⟩

/-- `field.FullName` (lines 137-139): the base path and the name joined
by the separator. (The heap-level behaviour of the `append` inside the
Go implementation is modelled separately below for the catalog-path
analysis.) -/
def field.fullName (f : field) (separator : String) : String :=
  String.intercalate separator (f.Base ++ [f.Name])

/-- Replace a field's value, leaving all metadata unchanged — the effect
of a successful write through the field's `reflect.Value`. -/
def updateVal (f : field) (v : GoVal) : field := { f with Value := v }

/-- `FilesConfig` (lines 102-107). `Locations` and `BaseName` drive the
external file-system scan, which is outside this embedding; the merge
semantics only need the separator and the disabled switch. -/
structure FilesConfig where
  Separator : String
  Disabled : Bool
deriving DecidableEq, Repr

/-- `EnvConfig` (lines 116-120). The Go field `Prefix` is called `Pfx`
here, since its Go name collides with a reserved word. -/
structure EnvConfig where
  Pfx : String
  Separator : String
  Disabled : Bool
deriving DecidableEq, Repr

/-- `FlagsConfig` (lines 125-128). -/
structure FlagsConfig where
  Separator : String
  Disabled : Bool
deriving DecidableEq, Repr

/-- `Collector` (lines 91-95). -/
structure Collector where
  Files : FilesConfig
  Env : EnvConfig
  Flags : FlagsConfig
deriving DecidableEq, Repr

/-! ## `stringSlice` and `stringMap` text decoding (lines 588-630) -/

/-- `stringSlice.UnmarshalText` (lines 617-626): split on `,` and trim
surrounding whitespace from every element. It never fails. -/
def stringSliceUnmarshalText (text : String) : List String :=
  (goSplit text ",").map goTrim

/-- Go map assignment `m[k] = v` on the association-list representation:
overwrite the existing binding for `k` in place, or append a new one. -/
def mapSet (m : List (String × String)) (k v : String) : List (String × String) :=
  match m with
  | [] => [(k, v)]
  | (k', v') :: rest =>
    if k' = k then (k, v) :: rest else (k', v') :: mapSet rest k v

/-- One element of the `stringMap.UnmarshalText` loop body (lines
595-600): `strings.SplitN(keyVal, "=", 2)` with both parts trimmed.
`none` when the element contains no `=`, in which case the Go code's
`split[1]` access panics with an index-out-of-range fault. -/
def pairOf (keyVal : String) : Option (String × String) :=
  match splitN2 keyVal "=" with
  | [k, v] => some (goTrim k, goTrim v)
  | _ => none

/-- The fold of `stringMap.UnmarshalText` over the comma-split elements;
`none` models the index-out-of-range panic on an element without `=`. -/
def stringMapLoop (m : List (String × String)) :
    List String → Option (List (String × String))
  | [] => some m
  | keyVal :: rest =>
    match pairOf keyVal with
    | some (k, v) => stringMapLoop (mapSet m k v) rest
    | none => none

/-- `stringMap.UnmarshalText` (lines 590-604): comma-split via
`stringSlice.UnmarshalText`, then each element split once on `=` with
both sides trimmed and inserted into the map. `none` models the runtime
panic raised by `split[1]` on a malformed element. -/
def stringMapUnmarshalText (text : String) : Option (List (String × String)) :=
  stringMapLoop [] (stringSliceUnmarshalText text)

/-! ## The value coercer `setFromString` (lines 453-546) -/

/-- `setFromString` (lines 453-546) for the modelled type family. The Go
function mutates `target` in place; here it returns the value written.
The result depends on the target only through its static type and its
settability, which mirrors the source: the current value is only read to
drive the type switch. The deferred `recover` (lines 454-458) converts
any internal panic — in the modelled fragment, the `stringMap` index
panic and the `reflect.Set` type-mismatch panic on struct targets — into
`ErrUnsupportedType`. -/
def setFromString (canSet : Bool) (ty : GoType) (value : String) :
    Except GoErr GoVal :=
  if !canSet then .error .cantSet
  else if value = "" then .ok (zeroVal ty)
  else
    match ty with
    | .int w =>
      match parseInt64 value with
      | some n => .ok (.vint w (wrapSigned w n))
      | none => .error .parseError
    | .bool =>
      match parseBool value with
      | some b => .ok (.vbool b)
      | none => .error .parseError
    | .string => .ok (.vstr value)
    | .sslice => .ok (.vslice (stringSliceUnmarshalText value))
    | .smap =>
      match stringMapUnmarshalText value with
      | some m => .ok (.vmap m)
      | none => .error .unsupportedType
    | .goStruct => .error .unsupportedType

/-! ## Annotation parsing (lines 234-276 and 561-586) -/

/-- `readFlagConfig` (lines 561-586): split the `flag=` value on a single
space; more than two tokens is malformed; a one-rune token is the short
name and any other token the long default name, each settable at most
once. -/
def readFlagConfig (flagStr : String) : Except GoErr flag :=
  let flags := goSplit flagStr " "
  if flags.length > 2 then .error .malformedFlagConfig
  else
    flags.foldlM
      (fun conf f =>
        if f.data.length = 1 then
          if conf.ShortName ≠ "" then .error .malformedFlagConfig
          else .ok { conf with ShortName := f }
        else
          if conf.DefaultName ≠ "" then .error .malformedFlagConfig
          else .ok { conf with DefaultName := f })
      ({} : flag)

/-- Outcome of `readParameterConfig`: a parsed config, a returned error,
or a runtime panic (the source calls Go's `panic`, which unwinds the
whole `Collector.Get` call — no `recover` is in scope there). -/
inductive TagResult where
  | ok (c : parameterConfig)
  | err (e : GoErr)
  | panicked (msg : String)
deriving DecidableEq, Repr

/-- Loop body of `readParameterConfig` (lines 241-273) over the
comma-split `key=value` pairs. -/
def readParameterConfigLoop : parameterConfig → List String → TagResult
  | c, [] => .ok c
  | c, paramStr :: rest =>
    match splitN2 paramStr "=" with
    | [k, v] =>
      if k = "" ∨ v = "" then
        .panicked "config struct tag needs to have the format: config:\"file=val,env=val,flag=l long\""
      else if k = "env" then
        readParameterConfigLoop { c with DefaultEnvName := v } rest
      else if k = "file" then
        readParameterConfigLoop { c with DefaultFileField := v } rest
      else if k = "flag" then
        match readFlagConfig v with
        | .error e => .err e
        | .ok fc => readParameterConfigLoop { c with Flag := fc } rest
      else
        .panicked "only env, file, and flag are allowed as config tag keys"
    | _ => .panicked "invalid config struct tag format"

/-- `readParameterConfig` (lines 234-276): an empty tag yields the empty
config; otherwise each comma-separated `key=value` pair is processed in
order. An element without `=`, an empty key or value, or an unrecognized
key raises a panic; a malformed `flag=` spec returns an error. -/
def readParameterConfig (configStr : String) : TagResult :=
  if configStr = "" then .ok {} else readParameterConfigLoop {} (goSplit configStr ",")

/-! ## Env reader (lines 360-397) -/

/-- Indexing into the environment table built by `getEnvAsMap` (lines
360-370): the table keeps the keys exactly as the process environment
supplies them, and Go map indexing compares keys exactly (the keys of
`os.Environ` are unique, so first match is the match). -/
def lookupVar (vars : List (String × String)) (k : String) : Option String :=
  (vars.find? fun kv => kv.1 = k).map fun kv => kv.2

/-- The distinctive env name of a field (lines 374-377): the full name
joined by the env separator, with the configured prefix (if nonempty)
prepended using the same separator. -/
def distinctEnvName (config : EnvConfig) (f : field) : String :=
  if config.Pfx ≠ "" then
    config.Pfx ++ config.Separator ++ f.fullName config.Separator
  else
    f.fullName config.Separator

/-- The candidate env names of a field, in lookup order (lines 379-382). -/
def envNames (config : EnvConfig) (f : field) : List String :=
  [f.Config.DefaultEnvName, distinctEnvName config f]

/-- The match test of `readEnv` (line 385): the candidate name is
uppercased and looked up against the table keys as supplied. -/
def envHit (vars : List (String × String)) (envName : String) : Option String :=
  lookupVar vars (goToUpper envName)

/-- Per-field body of `readEnv` (lines 373-393): each candidate name
that hits the table is coerced and assigned, in order; the loop does not
stop after a hit, so a later hit overwrites an earlier one. -/
def readEnvField (config : EnvConfig) (vars : List (String × String))
    (f : field) : Except GoErr field :=
  (envNames config f).foldlM
    (fun acc envName =>
      match envHit vars envName with
      | none => .ok acc
      | some envVal => (setFromString acc.canSet acc.ty envVal).map (updateVal acc))
    f

/-- `readEnv` (lines 372-397). -/
def readEnv (fields : List field) (config : EnvConfig)
    (vars : List (String × String)) : Except GoErr (List field) :=
  fields.mapM (readEnvField config vars)

/-! ## File reader (lines 318-358) -/

/-- Decoded configuration-file content: scalars or a nested map. -/
inductive FileVal where
  | str (s : String)
  | int (n : Int)
  | boolean (b : Bool)
  | fmap (entries : List (String × FileVal))

/-- Modelled from the spec: the `ciMap` type is repository code that is
not part of the provided source. Per §4.3 the decoded file map matches
one key level case-insensitively. -/
def ciLookup (entries : List (String × FileVal)) (seg : String) : Option FileVal :=
  (entries.find? fun kv => goToUpper kv.1 = goToUpper seg).map fun kv => kv.2

/-- Modelled from the spec: `ciMap.Get` descent, level by level along the
already-split path; an unmatched segment or a scalar met before the path
ends is "not found". -/
def ciGetSegs : FileVal → List String → Option FileVal
  | v, [] => some v
  | .fmap entries, seg :: rest => (ciLookup entries seg).bind fun v => ciGetSegs v rest
  | _, _ :: _ => none

/-- Modelled from the spec: `ciMap.Get(path)` — split the path on the
configured separator and descend level by level (§4.3). -/
def ciGet (separator : String) (m : FileVal) (path : String) : Option FileVal :=
  ciGetSegs m (goSplit path separator)

/-- Modelled from the spec: the external `mapstructure.Decode` service,
"direct structural decode of a matched value into the field's static
type" (§4.5): scalars decode into the matching scalar type (integers are
narrowed by the reflect layer like `SetInt`), a nested map decodes into a
struct target (struct contents stay opaque here), and any other
combination is a type mismatch. -/
def msDecode : FileVal → GoType → Option GoVal
  | .str s, .string => some (.vstr s)
  | .int n, .int w => some (.vint w (wrapSigned w n))
  | .boolean b, .bool => some (.vbool b)
  | .fmap _, .goStruct => some .vstruct
  | _, _ => none

/-- The candidate file keys of a field, in lookup order (lines 320-323). -/
def fileFieldNames (separator : String) (f : field) : List String :=
  [f.Config.DefaultFileField, f.fullName separator]

/-- Per-field body of `readFileMap` (lines 319-354): for each candidate
name found in the map, decode structurally; on a type mismatch retry via
`setFromString` when the raw value is a string, tolerate the mismatch
when the target is a struct, and fail otherwise. The loop runs over both
candidate names without stopping after a hit. -/
def readFileMapField (separator : String) (m : FileVal) (f : field) :
    Except GoErr field :=
  (fileFieldNames separator f).foldlM
    (fun acc fieldName =>
      match ciGet separator m fieldName with
      | none => .ok acc
      | some valueForField =>
        match msDecode valueForField acc.ty with
        | some v => .ok (updateVal acc v)
        | none =>
          match valueForField with
          | .str s => (setFromString acc.canSet acc.ty s).map (updateVal acc)
          | _ => if acc.ty = .goStruct then .ok acc else .error .decodeError)
    f

/-- `readFileMap` (lines 318-358). -/
def readFileMap (fields : List field) (separator : String) (m : FileVal) :
    Except GoErr (List field) :=
  fields.mapM (readFileMapField separator m)

/-! ## Flag reader (lines 399-451) -/

/-- The field-specific long flag name (line 412): the full name joined by
the flag separator, lowercased. -/
def longFlagName (config : FlagsConfig) (f : field) : String :=
  goToLower (f.fullName config.Separator)

/-- All long flag names registered on the flag set (lines 411-431): for
each field its default name (de-duplicated through `fieldCache`, which
does not affect membership) and its specific long name. Short aliases
are left out of the model; the modelled token form only uses long names. -/
def registeredNames (fields : List field) (config : FlagsConfig) : List String :=
  (fields.map fun f => [f.Config.Flag.DefaultName, longFlagName config f]).flatten

/-- Modelled from the spec: one token of the external `pflag` parsing
service, in the `--name=value` form. Other token shapes (short flags,
value in the following token, positional arguments) are outside the
modelled fragment and yield no assignment. -/
def parseToken (tok : String) : Option (String × String) :=
  if listStartsWith tok.data ['-', '-'] then
    match splitN2 ⟨tok.data.drop 2⟩ "=" with
    | [n, v] => if n = "" then none else some (n, v)
    | _ => none
  else none

/-- Modelled from the spec: the result of `flagSet.Parse(args)` for one
registered flag name — `some v` when the flag was explicitly supplied
(`Changed`), carrying the last supplied value, and `none` when it was
never supplied. Tokens whose name is not registered are skipped, per the
`ParseErrorsWhitelist{UnknownFlags: true}` configuration (line 406). -/
def flagValue (registered : List String) (args : List String) (name : String) :
    Option String :=
  ((args.filterMap parseToken).filter fun p => registered.contains p.1).foldl
    (fun acc p => if p.1 = name then some p.2 else acc) none

/-- Per-field application loop of `readPFlags` (lines 437-448): the
default identity is checked before the specific identity, and an
identity is applied only when it was explicitly supplied (`Changed`). -/
def applyFlagsField (config : FlagsConfig) (fv : String → Option String)
    (f : field) : Except GoErr field :=
  [f.Config.Flag.DefaultName, longFlagName config f].foldlM
    (fun acc name =>
      match fv name with
      | none => .ok acc
      | some v => (setFromString acc.canSet acc.ty v).map (updateVal acc))
    f

/-- `readPFlags` (lines 404-451): register every field's default and
specific identities, parse the arguments, then apply the supplied
identities field by field. (The Go map holding the per-field flag slices
is iterated in unspecified order, but each iteration touches only its
own field, so list order is equivalent.) -/
def readPFlags (fields : List field) (config : FlagsConfig)
    (args : List String) : Except GoErr (List field) :=
  fields.mapM (applyFlagsField config (flagValue (registeredNames fields config) args))

/-! ## Collector orchestration (lines 158-198) -/

/-- The files stage of `Collector.Get`: `readFiles` (lines 278-316)
scans directories and decodes each matching file (both external
services); the decoded maps are consumed here in discovery order. When
no file is found the `ErrNoFileFound` soft error is swallowed by `Get`
(lines 173-181), which is equivalent to folding over an empty list. -/
def readFilesMaps (fields : List field) (config : FilesConfig)
    (maps : List FileVal) : Except GoErr (List field) :=
  maps.foldlM (fun fs m => readFileMap fs config.Separator m) fields

/-- `Collector.Get` (lines 158-198) downstream of the catalog build: the
three source readers run in fixed order — files, then environment, then
flags — each skipped when disabled. The decoded file maps, the
environment table and the argument list stand in for the external file
system, `os.Environ()` and `os.Args[1:]`. -/
def Collector.Get (c : Collector) (fields : List field) (maps : List FileVal)
    (vars : List (String × String)) (args : List String) :
    Except GoErr (List field) :=
  (if c.Files.Disabled then pure fields else readFilesMaps fields c.Files maps) >>= fun fs₁ =>
  (if c.Env.Disabled then pure fs₁ else readEnv fs₁ c.Env vars) >>= fun fs₂ =>
  if c.Flags.Disabled then pure fs₂ else readPFlags fs₂ c.Flags args

/-! ## Per-field assignment structure of the readers

Each reader's per-field loop has the same shape: walk a list of candidate
names, and for every candidate that produces an assignment attempt, run
the attempt and store its value. The definitions below capture that shape
once, together with the per-stage attempt lists, and culminate in
`specMergedValue` — a second definition written after the specification's
words ("the field's final value is the one supplied by the
highest-precedence enabled source that set it; a field set by no source
retains the preset value") against which `Collector.Get` is compared. -/

/-- One candidate step: `g` maps a candidate name (given the target's
settability and type) to `none` (no assignment attempted) or to the
attempted coercion result. -/
def loopStep (g : String → Bool → GoType → Option (Except GoErr GoVal))
    (acc : field) (a : String) : Except GoErr field :=
  match g a acc.canSet acc.ty with
  | none => .ok acc
  | some r => r.map (updateVal acc)

/-- The candidate walk shared by the three readers. -/
def applyLoop (g : String → Bool → GoType → Option (Except GoErr GoVal))
    (l : List String) (f : field) : Except GoErr field :=
  l.foldlM (loopStep g) f

/-- The env reader's candidate outcome for one name. -/
def gEnv (vars : List (String × String)) (name : String) (canSet : Bool)
    (ty : GoType) : Option (Except GoErr GoVal) :=
  (envHit vars name).map (setFromString canSet ty)

/-- The flag reader's candidate outcome for one identity. -/
def gFlag (fv : String → Option String) (name : String) (canSet : Bool)
    (ty : GoType) : Option (Except GoErr GoVal) :=
  (fv name).map (setFromString canSet ty)

/-- The file reader's candidate outcome for one key: a found value is
decoded structurally; on a mismatch a string value retries through the
coercer, a struct target tolerates the mismatch (no assignment), and
anything else is an error. -/
def gFile (separator : String) (m : FileVal) (name : String) (canSet : Bool)
    (ty : GoType) : Option (Except GoErr GoVal) :=
  match ciGet separator m name with
  | none => none
  | some valueForField =>
    match msDecode valueForField ty with
    | some v => some (.ok v)
    | none =>
      match valueForField with
      | .str s => some (setFromString canSet ty s)
      | _ => if ty = .goStruct then none else some (.error .decodeError)

/-- All assignment attempts a candidate list produces. -/
def attemptsOf (g : String → Bool → GoType → Option (Except GoErr GoVal))
    (l : List String) (canSet : Bool) (ty : GoType) : List (Except GoErr GoVal) :=
  l.filterMap fun a => g a canSet ty

/-- The value left in a field after running a list of attempts in order,
starting from `v₀` (failed attempts abort the reader, so their branch is
irrelevant under a successful run). -/
def lastOkVal (v₀ : GoVal) : List (Except GoErr GoVal) → GoVal
  | [] => v₀
  | .ok v :: rest => lastOkVal v rest
  | .error _ :: rest => lastOkVal v₀ rest

/-- The env stage's attempts for one field. -/
def envAttempts (config : EnvConfig) (vars : List (String × String))
    (f : field) : List (Except GoErr GoVal) :=
  attemptsOf (gEnv vars) (envNames config f) f.canSet f.ty

/-- One file map's attempts for one field. -/
def fileAttempts (separator : String) (m : FileVal) (f : field) :
    List (Except GoErr GoVal) :=
  attemptsOf (gFile separator m) (fileFieldNames separator f) f.canSet f.ty

/-- The whole files stage's attempts for one field, across the decoded
maps in discovery order. -/
def filesAttempts (config : FilesConfig) (maps : List FileVal) (f : field) :
    List (Except GoErr GoVal) :=
  (maps.map fun m => fileAttempts config.Separator m f).flatten

/-- The flag stage's attempts for one field: default identity first, then
the specific identity. -/
def flagAttempts (config : FlagsConfig) (fv : String → Option String)
    (f : field) : List (Except GoErr GoVal) :=
  attemptsOf (gFlag fv) [f.Config.Flag.DefaultName, longFlagName config f]
    f.canSet f.ty

/-- The value a stage sets a field to: the result of its last assignment
attempt, or `none` when the stage never assigned the field. -/
def stageVal (attempts : List (Except GoErr GoVal)) : Option GoVal :=
  attempts.getLast?.bind Except.toOption

/-- Written after the specification's words: the final value of a field
is the one supplied by the highest-precedence enabled source that set it,
in the order defaults < files < environment < flags, and the preset value
when no enabled source set it. `registered` is the flag-name universe the
flag stage parses against. -/
def specMergedValue (c : Collector) (maps : List FileVal)
    (vars : List (String × String)) (args : List String)
    (registered : List String) (f : field) : GoVal :=
  let fileA := stageVal
    (if c.Files.Disabled then [] else filesAttempts c.Files maps f)
  let envA := stageVal
    (if c.Env.Disabled then [] else envAttempts c.Env vars f)
  let flagA := stageVal
    (if c.Flags.Disabled then [] else flagAttempts c.Flags (flagValue registered args) f)
  flagA.getD (envA.getD (fileA.getD f.Value))

/-- Per-field characterization of one merge stage: the output list has
the input's length, and every output field is the input field with its
value replaced by the result of running the stage's assignment attempts
(all of which succeeded) over the input value. -/
def stageChar (A : field → List (Except GoErr GoVal)) (l₁ l₂ : List field) : Prop :=
  l₂.length = l₁.length ∧
  ∀ i (h1 : i < l₁.length) (h2 : i < l₂.length),
    (∀ r ∈ A (l₁.get ⟨i, h1⟩), ∃ w, r = .ok w) ∧
    l₂.get ⟨i, h2⟩ = updateVal (l₁.get ⟨i, h1⟩)
      (lastOkVal (l₁.get ⟨i, h1⟩).Value (A (l₁.get ⟨i, h1⟩)))

/-! ## Catalog construction at the slice-heap level (lines 200-232)

`getFieldsConfigsFromValue` builds each nested base path with
`newBase := append(base, fieldType.Name)` and stores the resulting slice
headers in the recorded fields. Go slices share backing arrays: when the
base slice has spare capacity, `append` writes into the shared array in
place, so a later sibling's `append` can overwrite the element a stored
path still points at. To examine the paths the catalog actually carries,
slices are modelled as headers over a heap of backing arrays, with the
growth rule of the standard Go runtime for single-element appends
(capacity 0 grows to 1, a full buffer doubles). -/

/-- A Go slice header: backing-array id and length. The slices built here
always start at offset zero. -/
structure GoSlice where
  buf : Nat
  len : Nat
deriving DecidableEq, Repr

/-- The heap of backing arrays; each array's list has length equal to
its capacity, with unused slots holding `""`. -/
structure SliceHeap where
  bufs : List (List String)
deriving DecidableEq, Repr

/-- The capacity of a backing array. -/
def SliceHeap.capOf (h : SliceHeap) (b : Nat) : Nat := (h.bufs.getD b []).length

/-- The elements a slice header denotes. -/
def SliceHeap.readSlice (h : SliceHeap) (s : GoSlice) : List String :=
  (h.bufs.getD s.buf []).take s.len

/-- Go's `append(s, x)` for one element: write in place when capacity
allows, otherwise allocate a fresh backing array of the doubled capacity
(1 from 0), copy, and write. -/
def goAppend (h : SliceHeap) (s : GoSlice) (x : String) : SliceHeap × GoSlice :=
  if s.len < h.capOf s.buf then
    (⟨h.bufs.set s.buf ((h.bufs.getD s.buf []).set s.len x)⟩,
      ⟨s.buf, s.len + 1⟩)
  else
    let newcap := max (s.len + 1) (2 * h.capOf s.buf)
    let data := h.readSlice s ++ [x]
    (⟨h.bufs ++ [data ++ List.replicate (newcap - data.length) ""]⟩,
      ⟨h.bufs.length, s.len + 1⟩)

/-- The shape of a settings struct for the catalog walk: leaf fields and
nested struct fields (tags play no role in the path analysis). -/
inductive GoStructField where
  | leaf (name : String)
  | node (name : String) (children : List GoStructField)

/-- A catalog entry as recorded by `getFieldsConfigsFromValue`: the
stored base-path slice header and the field's own name. -/
structure CatField where
  Base : GoSlice
  Name : String
deriving DecidableEq, Repr

instance : Inhabited CatField := ⟨⟨⟨0, 0⟩, ""⟩⟩

/-- `getFieldsConfigsFromValue` (lines 200-232) at the slice level: each
field is recorded with the current base slice header; for a struct-typed
field the walk recurses with `append(base, name)` and the resulting
sub-fields are appended after it, then the remaining siblings are
processed against the original base header. The fuel only bounds the
nesting depth of the recursion; any fuel at least the struct's depth
yields the source behavior. -/
def getFieldsHeap : Nat → SliceHeap → GoSlice → List GoStructField →
    SliceHeap × List CatField
  | 0, h, _, _ => (h, [])
  | fuel + 1, h, base, fs =>
    fs.foldl
      (fun (st : SliceHeap × List CatField) f =>
        match f with
        | .leaf name => (st.1, st.2 ++ [⟨base, name⟩])
        | .node name children =>
          let (h₁, newBase) := goAppend st.1 base name
          let (h₂, sub) := getFieldsHeap fuel h₁ newBase children
          (h₂, st.2 ++ [⟨base, name⟩] ++ sub))
      (h, [])

/-- The string a call of `field.FullName` (lines 137-139) returns in heap
state `h`: `strings.Join(append(f.Base, f.Name), separator)`. The `append`
inside `FullName` may itself write into shared spare capacity, but the
string it returns is always the slice's current elements followed by the
name. -/
def fullNameAt (h : SliceHeap) (f : CatField) (separator : String) : String :=
  String.intercalate separator (h.readSlice f.Base ++ [f.Name])

/-- The full path the specification prescribes for every catalog entry:
the names of the ancestor struct fields followed by the field's own name
(value semantics, no shared buffers). Fuel as in `getFieldsHeap`. -/
def specFullPaths : Nat → List String → List GoStructField → List (List String)
  | 0, _, _ => []
  | fuel + 1, base, fs =>
    fs.foldl
      (fun (acc : List (List String)) f =>
        match f with
        | .leaf name => acc ++ [base ++ [name]]
        | .node name children =>
          acc ++ [base ++ [name]] ++ specFullPaths fuel (base ++ [name]) children)
      []

/-- The empty heap and the nil base slice (`base` starts as Go's nil
slice: no backing array, capacity zero). -/
def emptyHeap : SliceHeap := ⟨[[]]⟩

/-- The nil base slice. -/
def nilSlice : GoSlice := ⟨0, 0⟩

/-- The nesting shape that triggers buffer sharing: three levels of
single-struct nesting, then two sibling structs each holding one leaf. -/
def demoStruct : List GoStructField :=
  [.node "A" [.node "C" [.node "E" [.node "G" [.leaf "X"], .node "H" [.leaf "Y"]]]]]

/-- The catalog built from `demoStruct`, with its final heap. -/
def demoBuild : SliceHeap × List CatField :=
  getFieldsHeap 8 emptyHeap nilSlice demoStruct

/-! ## Concrete fixtures for counterexamples and witnesses -/

/-- A `Database.Port` field preset to 3000, with no annotation. -/
def portField : field :=
  { Base := ["Database"], Name := "Port", canSet := true, ty := .int 64,
    Value := .vint 64 3000, Config := {} }

/-- The default env configuration (`"_"` separator, no prefix). -/
def envCfg : EnvConfig := { Pfx := "", Separator := "_", Disabled := false }

/-- A top-level string `Port` field with a `file=alias` annotation. -/
def filePortField : field :=
  { Base := [], Name := "Port", canSet := true, ty := .string,
    Value := .vstr "preset", Config := { DefaultFileField := "alias" } }

/-- A decoded file map holding both the explicit alias key and the
field's dotted full path, with different values. -/
def demoFileMap : FileVal :=
  .fmap [("alias", .str "v1"), ("Port", .str "v2")]

/-- A top-level string `Port` field carrying a `flag=verbose` default
identity and an env override name. -/
def flagPortField : field :=
  { Base := [], Name := "Port", canSet := true, ty := .string,
    Value := .vstr "preset",
    Config := { DefaultEnvName := "PORT", Flag := { DefaultName := "verbose" } } }

/-- The default flag configuration (`"-"` separator). -/
def flagsCfg : FlagsConfig := { Separator := "-", Disabled := false }

/-- An all-enabled collector with the default separators. -/
def demoCollector : Collector :=
  { Files := { Separator := ".", Disabled := false },
    Env := envCfg,
    Flags := flagsCfg }

/-- An `int64` `Port` field reachable from all three sources. -/
def mergePortField : field :=
  { Base := [], Name := "Port", canSet := true, ty := .int 64,
    Value := .vint 64 3000, Config := { DefaultEnvName := "PORT" } }

example : (demoBuild.2.map fun f => f.Name) = ["A", "C", "E", "G", "X", "H", "Y"] := by decide
example : fullNameAt demoBuild.1 (demoBuild.2.getD 4 default) "." = "A.C.E.H.X" := by decide
example : specFullPaths 8 [] demoStruct = [["A"], ["A", "C"], ["A", "C", "E"],
    ["A", "C", "E", "G"], ["A", "C", "E", "G", "X"],
    ["A", "C", "E", "H"], ["A", "C", "E", "H", "Y"]] := by decide

example : setFromString true (.int 64) "-7" = .ok (.vint 64 (-7)) := by decide
example : setFromString true .smap "a=1, b = 2" =
    .ok (.vmap [("a", "1"), ("b", "2")]) := by decide
example : setFromString true .string "" = .ok (.vstr "") := by decide

/-! ## Monad-reduction helpers for `Except` -/

/-- Bind on a successful `Except` runs the continuation. -/
@[simp] lemma exceptBindOk {ε α β : Type} (a : α) (g : α → Except ε β) :
    (Except.ok a >>= g) = g a := rfl

/-- Bind on a failed `Except` keeps the error. -/
@[simp] lemma exceptBindErr {ε α β : Type} (e : ε) (g : α → Except ε β) :
    ((Except.error e : Except ε α) >>= g) = Except.error e := rfl

/-- `pure` on `Except` is `Except.ok`. -/
@[simp] lemma exceptPure {ε α : Type} (a : α) :
    (pure a : Except ε α) = Except.ok a := rfl

/-- `Except.map` on a success applies the function. -/
@[simp] lemma exceptMapOk {ε α β : Type} (g : α → β) (a : α) :
    Except.map g (Except.ok a : Except ε α) = Except.ok (g a) := rfl

/-- `Except.map` on a failure keeps the error. -/
@[simp] lemma exceptMapErr {ε α β : Type} (g : α → β) (e : ε) :
    Except.map g (Except.error e : Except ε α) = Except.error e := rfl

/-- Unfolding for the accumulator loop behind `List.mapM` on `Except`:
the empty case. -/
@[simp] lemma mapMLoopNil {ε α β : Type} (g : α → Except ε β) (acc : List β) :
    List.mapM.loop g [] acc = .ok acc.reverse := rfl

/-- Unfolding for the accumulator loop behind `List.mapM` on `Except`:
the cons case. -/
@[simp] lemma mapMLoopCons {ε α β : Type} (g : α → Except ε β) (a : α)
    (l : List α) (acc : List β) :
    List.mapM.loop g (a :: l) acc = g a >>= fun b => List.mapM.loop g l (b :: acc) := rfl

/-! ## C5 — annotation authoring errors panic instead of returning -/

/-- C5 counterexample: the annotation `env=` has an empty value, and
`readParameterConfig` terminates with a panic (an unrecoverable crash —
no `recover` is in scope on this path) instead of returning a caught
error as the claim states. -/
theorem readParameterConfig_env_empty_panics :
    readParameterConfig "env=" =
      .panicked "config struct tag needs to have the format: config:\"file=val,env=val,flag=l long\"" := by
  decide

/-- C5 (amended): for every single-pair annotation string whose key is
empty, whose value is empty, or whose key is unrecognized, the merge
aborts during Field Catalog construction, before any source is read, by
panicking with a descriptive message — an unrecoverable crash, not a
returned caught error (only a malformed `flag=` spec is returned as a
caught error). The split hypotheses state that the annotation is a single
pair in evaluated form. -/
theorem readParameterConfig_panics (s k v : String)
    (hone : goSplit s "," = [s]) (hkv : splitN2 s "=" = [k, v])
    (hbad : k = "" ∨ v = "" ∨ (k ≠ "env" ∧ k ≠ "file" ∧ k ≠ "flag"))
    (hne : s ≠ "") :
    ∃ msg, readParameterConfig s = .panicked msg := by
  unfold readParameterConfig
  rw [if_neg hne, hone]
  unfold readParameterConfigLoop
  rw [hkv]
  by_cases hkv0 : k = "" ∨ v = ""
  · refine ⟨"config struct tag needs to have the format: config:\"file=val,env=val,flag=l long\"", ?_⟩
    simp [hkv0]
  · rcases hbad with h | h | ⟨h1, h2, h3⟩
    · exact absurd (Or.inl h) hkv0
    · exact absurd (Or.inr h) hkv0
    · refine ⟨"only env, file, and flag are allowed as config tag keys", ?_⟩
      simp [hkv0, h1, h2, h3]

/-- Witness for `readParameterConfig_panics` at the unrecognized key
`badkey=x`. -/
theorem readParameterConfig_panics_witness :
    ∃ msg, readParameterConfig "badkey=x" = .panicked msg :=
  readParameterConfig_panics "badkey=x" "badkey" "x" (by decide) (by decide)
    (Or.inr (Or.inr (by decide))) (by decide)

/-! ## C6 — malformed `map[string]string` elements fail the coercion -/

/-- C6 counterexample: coercing `"a=1,b"` into a `map[string]string`
field does not skip the malformed element `b`: the `split[1]` access
panics, the deferred `recover` in `setFromString` converts the panic into
`ErrUnsupportedType`, and nothing is assigned. -/
theorem stringMap_malformed_cex :
    setFromString true .smap "a=1,b" = .error .unsupportedType := by decide

/-- If every comma-element holds a `=`, the `stringMap` loop succeeds. -/
lemma stringMapLoop_all_some :
    ∀ (l : List String) (m : List (String × String)),
      (∀ e ∈ l, (pairOf e).isSome) → ∃ mp, stringMapLoop m l = some mp := by
  intro l
  induction l with
  | nil => exact fun m _ => ⟨m, rfl⟩
  | cons e rest ih =>
    intro m h
    obtain ⟨⟨k, v⟩, hkv⟩ :=
      Option.isSome_iff_exists.mp (h e (List.mem_cons_self ..))
    rw [stringMapLoop, hkv]
    exact ih (mapSet m k v) fun x hx => h x (List.mem_cons_of_mem _ hx)

/-- If some comma-element holds no `=`, the `stringMap` loop panics. -/
lemma stringMapLoop_none :
    ∀ (l : List String) (m : List (String × String)) (e : String),
      e ∈ l → pairOf e = none → stringMapLoop m l = none := by
  intro l
  induction l with
  | nil => intro m e he; cases he
  | cons a rest ih =>
    intro m e he hnone
    rcases List.mem_cons.mp he with rfl | hmem
    · rw [stringMapLoop, hnone]
    · rw [stringMapLoop]
      cases hpa : pairOf a with
      | none => rfl
      | some kv => exact ih (mapSet m kv.1 kv.2) e hmem hnone

/-- C6 (amended): coercing a nonempty text value into a
`map[string]string` field splits on `,` and each element once on `=` with
both sides trimmed; when every element contains a `=` the coercion
succeeds with exactly those pairs, but when any element contains no `=`
the coercion does not skip it — the index-out-of-range panic is recovered
into `ErrUnsupportedType` and the whole coercion fails with no pairs
assigned. -/
theorem stringMap_malformed_amended (s : String) (hne : s ≠ "") :
    ((∀ e ∈ stringSliceUnmarshalText s, (pairOf e).isSome) →
      ∃ mp, stringMapUnmarshalText s = some mp ∧
        setFromString true .smap s = .ok (.vmap mp)) ∧
    ((∃ e ∈ stringSliceUnmarshalText s, pairOf e = none) →
      setFromString true .smap s = .error .unsupportedType) := by
  constructor
  · intro h
    obtain ⟨mp, hmp⟩ := stringMapLoop_all_some (stringSliceUnmarshalText s) [] h
    have hun : stringMapUnmarshalText s = some mp := hmp
    exact ⟨mp, hun, by simp [setFromString, hne, hun]⟩
  · intro ⟨e, he, hnone⟩
    have hun : stringMapUnmarshalText s = none :=
      stringMapLoop_none (stringSliceUnmarshalText s) [] e he hnone
    simp [setFromString, hne, hun]

/-- Witness for `stringMap_malformed_amended`: a fully well-formed input
succeeds with the trimmed pairs, and an input with a malformed element
fails with `ErrUnsupportedType`. -/
theorem stringMap_malformed_amended_witness :
    setFromString true .smap "k=1, l = 2" = .ok (.vmap [("k", "1"), ("l", "2")]) ∧
    setFromString true .smap "x=1,y" = .error .unsupportedType := by
  constructor
  · obtain ⟨mp, hmp, hset⟩ :=
      (stringMap_malformed_amended "k=1, l = 2" (by decide)).1 (by decide)
    have : stringMapUnmarshalText "k=1, l = 2" = some [("k", "1"), ("l", "2")] := by
      decide
    rw [this] at hmp
    cases hmp
    exact hset
  · exact (stringMap_malformed_amended "x=1,y" (by decide)).2
      ⟨"y", by decide, by decide⟩

/-! ## C2 — env matching uppercases only the lookup name -/

/-- C2 counterexample: the computed env name `Database_Port` and the
entry key `database_port` are equal after uppercasing both sides, yet
`readEnv` does not match them — the lookup name is uppercased to
`DATABASE_PORT` and compared exactly against the key as supplied, so the
field keeps its preset value. -/
theorem env_case_insensitive_cex :
    goToUpper (portField.fullName envCfg.Separator) = goToUpper "database_port" ∧
    readEnv [portField] envCfg [("database_port", "5432")] = .ok [portField] :=
  ⟨by decide, by decide⟩

/-- C2 (amended): environment matching is case-insensitive only on the
lookup side — a lookup name matches an environment entry exactly when
the entry's key, as supplied, equals the uppercased lookup name; entries
keyed in any other casing are never matched, and a field none of whose
candidate names match is left untouched. -/
theorem env_match_amended :
    (∀ (vars : List (String × String)) (name : String),
        (envHit vars name).isSome ↔ ∃ kv ∈ vars, kv.1 = goToUpper name) ∧
    (∀ (config : EnvConfig) (vars : List (String × String)) (f : field),
        (∀ n ∈ envNames config f, envHit vars n = none) →
        readEnvField config vars f = .ok f) := by
  constructor
  · intro vars name
    simp [envHit, lookupVar, List.find?_isSome]
  · intro config vars f h
    have h1 : envHit vars f.Config.DefaultEnvName = none :=
      h _ (by simp [envNames])
    have h2 : envHit vars (distinctEnvName config f) = none :=
      h _ (by simp [envNames])
    simp [readEnvField, envNames, List.foldlM, h1, h2]

/-- Witness for `env_match_amended`: an uppercase-keyed entry is matched
by a lowercase lookup, and a field with no matching candidate is left
unchanged. -/
theorem env_match_amended_witness :
    (envHit [("PORT", "1")] "port").isSome ∧
    readEnvField envCfg [("OTHER", "1")] portField = .ok portField := by
  constructor
  · exact (env_match_amended.1 [("PORT", "1")] "port").mpr
      ⟨("PORT", "1"), by decide, by decide⟩
  · exact env_match_amended.2 envCfg [("OTHER", "1")] portField (by decide)

/-! ## C3 — the file reader applies both name hits, full path last -/

/-- C3 counterexample: the decoded map holds values under both the
explicit `DefaultFileField` (`alias` ↦ `v1`) and the dotted full path
(`Port` ↦ `v2`); the claim says only the `alias` hit is applied, but
`readFileMap` applies both in order and the field ends at `v2`. -/
theorem file_first_hit_cex :
    ciGet "." demoFileMap "alias" = some (.str "v1") ∧
    ciGet "." demoFileMap (filePortField.fullName ".") = some (.str "v2") ∧
    readFileMap [filePortField] "." demoFileMap =
      .ok [updateVal filePortField (.vstr "v2")] :=
  ⟨rfl, rfl, by decide⟩

/-- C3 (amended): the file reader tries the field's `DefaultFileField`
first and its dotted full path second and applies every name that is
found, in that order — so when both names are found (string values into
a string field here), the full-path value is applied last and the field
ends with it, overwriting the `DefaultFileField` value. -/
theorem readFileMap_both_hits (separator : String) (m : FileVal) (f : field)
    (s₁ s₂ : String) (hty : f.ty = .string)
    (h1 : ciGet separator m f.Config.DefaultFileField = some (.str s₁))
    (h2 : ciGet separator m (f.fullName separator) = some (.str s₂)) :
    readFileMapField separator m f = .ok (updateVal f (.vstr s₂)) := by
  simp [readFileMapField, fileFieldNames, List.foldlM, h1, h2, hty,
    msDecode, updateVal]

/-- Witness for `readFileMap_both_hits` at the concrete fixture. -/
theorem readFileMap_both_hits_witness :
    readFileMapField "." demoFileMap filePortField =
      .ok (updateVal filePortField (.vstr "v2")) :=
  readFileMap_both_hits "." demoFileMap filePortField "v1" "v2" rfl rfl rfl

/-! ## C7 — signed-integer coercion parses at 64 bits and truncates -/

/-- C7 counterexample: coercing `"300"` into an `int8` field does not
report a range error sized to the 8-bit target: the parse runs at the
platform `int` width, succeeds, and `reflect.Value.SetInt` silently
truncates 300 to 44. -/
theorem setFromString_int8_truncates :
    setFromString true (.int 8) "300" = .ok (.vint 8 44) := by decide

/-- C7 (amended): for every signed-integer field width, a nonempty text
value is parsed in base 10 at the 64-bit platform-`int` width regardless
of the target's width: a parseable value is assigned after two's-
complement truncation into the target width (so a value representable in
the target's width is assigned exactly), while only values that fail the
64-bit parse (syntax errors or beyond the 64-bit range) are reported as
errors. -/
theorem setFromString_int_amended (w : Nat) (s : String) (n : Int)
    (hw : w = 8 ∨ w = 16 ∨ w = 32 ∨ w = 64) (hne : s ≠ "") :
    (parseInt64 s = some n →
      setFromString true (.int w) s = .ok (.vint w (wrapSigned w n)) ∧
        (-(2 ^ (w - 1)) ≤ n → n < 2 ^ (w - 1) → wrapSigned w n = n)) ∧
    (parseInt64 s = none →
      setFromString true (.int w) s = .error .parseError) := by
  refine ⟨fun hp => ⟨by simp [setFromString, hne, hp], fun h1 h2 => ?_⟩,
    fun hp => by simp [setFromString, hne, hp]⟩
  rcases hw with rfl | rfl | rfl | rfl <;>
    · simp only [wrapSigned]
      norm_num at h1 h2 ⊢
      split <;> omega

/-- Witness for `setFromString_int_amended`: width 8 with the in-range
value `42` assigned exactly, shown by applying the theorem at `"42"`. -/
theorem setFromString_int_amended_witness :
    setFromString true (.int 8) "42" = .ok (.vint 8 (wrapSigned 8 42)) ∧
    wrapSigned 8 42 = 42 := by
  have h := (setFromString_int_amended 8 "42" 42 (Or.inl rfl) (by decide)).1 (by decide)
  exact ⟨h.1, h.2 (by decide) (by decide)⟩

/-! ## C4 — catalog paths are corrupted by slice-buffer sharing -/

/-- C4 (code bug): in the struct shape `A.C.E.{G.X, H.Y}`, the base
slice `["A","C","E"]` is allocated with capacity 4, so the appends for
the sibling structs `G` and `H` write into the same backing array. The
catalog entry for `X` (index 4, child of `G`) stores a slice header into
that array, and after `H`'s append overwrites the shared slot, a
`FullName(".")` call on it yields `A.C.E.H.X` — not the path
`A.C.E.G.X` of its ancestors that the claim (and the specification's
intent) prescribes. The readers mask this in `Collector.Get` because
they call `FullName` on every field in catalog order, and the `append`
inside `FullName` rewrites the shared slot just before each use. -/
theorem catalog_path_aliasing_bug :
    (demoBuild.2.getD 4 default).Name = "X" ∧
    fullNameAt demoBuild.1 (demoBuild.2.getD 4 default) "." = "A.C.E.H.X" ∧
    (specFullPaths 8 [] demoStruct).getD 4 [] = ["A", "C", "E", "G", "X"] ∧
    String.intercalate "." ["A", "C", "E", "G", "X"] ≠ "A.C.E.H.X" := by
  refine ⟨by decide, by decide, by decide, by decide⟩

/-! ## C8 — empty-supplied flag resets, absent flag leaves untouched -/

/-- C8: for a settable field whose default identity was not supplied, an
explicitly supplied empty-string specific flag resets the field to its
type's zero value, while not supplying the specific flag at all leaves
the field's value untouched — an absent flag never overwrites a value
with the empty string. "Supplied" is the parse layer's `Changed` notion:
`flagValue` returns `some` exactly for explicitly supplied identities. -/
theorem readPFlags_empty_vs_absent (f : field) (config : FlagsConfig)
    (args : List String) (hset : f.canSet = true)
    (hd : flagValue (registeredNames [f] config) args f.Config.Flag.DefaultName = none) :
    (flagValue (registeredNames [f] config) args (longFlagName config f) = some "" →
      readPFlags [f] config args = .ok [updateVal f (zeroVal f.ty)]) ∧
    (flagValue (registeredNames [f] config) args (longFlagName config f) = none →
      readPFlags [f] config args = .ok [f]) := by
  constructor
  · intro hl
    simp [readPFlags, List.mapM_cons, List.mapM_nil, applyFlagsField,
      List.foldlM_cons, List.foldlM_nil, hd, hl, setFromString, hset, updateVal]
  · intro hl
    simp [readPFlags, List.mapM_cons, List.mapM_nil, applyFlagsField,
      List.foldlM_cons, List.foldlM_nil, hd, hl]

/-- Witness for `readPFlags_empty_vs_absent`: supplying `--port=` resets
the string field to `""`, and an argument list without the flag leaves
the preset value in place. -/
theorem readPFlags_empty_vs_absent_witness :
    readPFlags [flagPortField] flagsCfg ["--port="] =
      .ok [updateVal flagPortField (zeroVal flagPortField.ty)] ∧
    readPFlags [flagPortField] flagsCfg ["positional"] = .ok [flagPortField] :=
  ⟨(readPFlags_empty_vs_absent flagPortField flagsCfg ["--port="] (by decide)
      (by decide)).1 (by decide),
    (readPFlags_empty_vs_absent flagPortField flagsCfg ["positional"] (by decide)
      (by decide)).2 (by decide)⟩

/-! ## C9 — an explicitly supplied specific flag beats the default flag -/

/-- C9: when both the shared default identity and the field-specific
identity are explicitly supplied (with distinct names, as the underlying
flag set requires) and both values coerce, the field's final value is the
one given through the specific identity, because the specific identity is
applied after the default identity. -/
theorem readPFlags_specific_wins (f : field) (config : FlagsConfig)
    (args : List String) (dv sv : String) (vd vs : GoVal)
    (_hne : f.Config.Flag.DefaultName ≠ longFlagName config f)
    (hd : flagValue (registeredNames [f] config) args f.Config.Flag.DefaultName = some dv)
    (hs : flagValue (registeredNames [f] config) args (longFlagName config f) = some sv)
    (hcd : setFromString f.canSet f.ty dv = .ok vd)
    (hcs : setFromString f.canSet f.ty sv = .ok vs) :
    readPFlags [f] config args = .ok [updateVal f vs] := by
  simp [readPFlags, List.mapM_cons, List.mapM_nil, applyFlagsField,
    List.foldlM_cons, List.foldlM_nil, hd, hs, hcd, hcs, updateVal]

/-- Witness for `readPFlags_specific_wins`: `--verbose=a --port=b` leaves
the field at the specific identity's value `b`. -/
theorem readPFlags_specific_wins_witness :
    readPFlags [flagPortField] flagsCfg ["--verbose=a", "--port=b"] =
      .ok [updateVal flagPortField (.vstr "b")] :=
  readPFlags_specific_wins flagPortField flagsCfg ["--verbose=a", "--port=b"]
    "a" "b" (.vstr "a") (.vstr "b") (by decide) (by decide) (by decide)
    (by decide) (by decide)

/-! ## C10 — unregistered flag tokens are silently ignored -/

/-- C10: inserting a `--name=value` token whose name is not registered
for any catalog field anywhere into the argument list changes nothing:
the whitelisted parse skips it, so the merge returns the same result — no
error is introduced and no field value changes. -/
theorem readPFlags_unknown_ignored (fields : List field) (config : FlagsConfig)
    (args₁ args₂ : List String) (tok nm v : String)
    (hp : parseToken tok = some (nm, v))
    (hn : (registeredNames fields config).contains nm = false) :
    readPFlags fields config (args₁ ++ tok :: args₂) =
      readPFlags fields config (args₁ ++ args₂) := by
  have hn' : nm ∉ registeredNames fields config := by simpa using hn
  have hfv : flagValue (registeredNames fields config) (args₁ ++ tok :: args₂) =
      flagValue (registeredNames fields config) (args₁ ++ args₂) := by
    funext name
    simp [flagValue, List.filterMap_append, List.filterMap_cons, hp,
      List.filter_append, List.filter_cons, hn']
  rw [readPFlags, readPFlags, hfv]

/-- Witness for `readPFlags_unknown_ignored`: `--bogus=1` in front of
`--port=b` yields the same merge result as `--port=b` alone. -/
theorem readPFlags_unknown_ignored_witness :
    readPFlags [flagPortField] flagsCfg ["--bogus=1", "--port=b"] =
      readPFlags [flagPortField] flagsCfg ["--port=b"] :=
  readPFlags_unknown_ignored [flagPortField] flagsCfg [] ["--port=b"]
    "--bogus=1" "bogus" "1" (by decide) (by decide)

/-! ## C1 — precedence of the full merge pipeline -/

/-- Characterization of the candidate walk: a successful run leaves the
field with its value replaced by the fold of the (all successful)
assignment attempts. -/
lemma applyLoop_ok (g : String → Bool → GoType → Option (Except GoErr GoVal)) :
    ∀ (l : List String) (f f' : field),
      applyLoop g l f = .ok f' →
      (∀ r ∈ attemptsOf g l f.canSet f.ty, ∃ v, r = .ok v) ∧
      f' = updateVal f (lastOkVal f.Value (attemptsOf g l f.canSet f.ty)) := by
  intro l
  induction l with
  | nil =>
    intro f f' h
    rw [applyLoop, List.foldlM_nil] at h
    cases h
    exact ⟨by simp [attemptsOf], rfl⟩
  | cons a l ih =>
    intro f f' h
    rw [applyLoop, List.foldlM_cons] at h
    cases hg : g a f.canSet f.ty with
    | none =>
      rw [loopStep, hg] at h
      simp only [exceptBindOk] at h
      have := ih f f' h
      simpa [attemptsOf, List.filterMap_cons, hg] using this
    | some r =>
      cases r with
      | error e =>
        rw [loopStep, hg] at h
        simp at h
      | ok v =>
        rw [loopStep, hg] at h
        simp only [exceptMapOk, exceptBindOk] at h
        have := ih (updateVal f v) f' h
        rw [show (updateVal f v).canSet = f.canSet from rfl,
          show (updateVal f v).ty = f.ty from rfl] at this
        refine ⟨?_, ?_⟩
        · intro r hr
          rw [attemptsOf, List.filterMap_cons, hg] at hr
          rcases List.mem_cons.mp hr with rfl | hmem
          · exact ⟨v, rfl⟩
          · exact this.1 r hmem
        · rw [this.2]
          simp only [attemptsOf, List.filterMap_cons, hg]
          rfl

/-- `readEnvField` is the candidate walk over the env candidates. -/
lemma readEnvField_applyLoop (config : EnvConfig) (vars : List (String × String))
    (f : field) :
    readEnvField config vars f = applyLoop (gEnv vars) (envNames config f) f := by
  unfold readEnvField applyLoop
  congr 1
  funext acc name
  unfold loopStep gEnv
  cases envHit vars name <;> rfl

/-- `applyFlagsField` is the candidate walk over the two flag identities. -/
lemma applyFlagsField_applyLoop (config : FlagsConfig) (fv : String → Option String)
    (f : field) :
    applyFlagsField config fv f =
      applyLoop (gFlag fv) [f.Config.Flag.DefaultName, longFlagName config f] f := by
  unfold applyFlagsField applyLoop
  congr 1
  funext acc name
  unfold loopStep gFlag
  cases fv name <;> rfl

/-- `readFileMapField` is the candidate walk over the two file keys. -/
lemma readFileMapField_applyLoop (separator : String) (m : FileVal) (f : field) :
    readFileMapField separator m f =
      applyLoop (gFile separator m) (fileFieldNames separator f) f := by
  unfold readFileMapField applyLoop
  congr 1
  funext acc name
  unfold loopStep gFile
  cases hc : ciGet separator m name with
  | none => rfl
  | some v => cases v <;> cases hty : acc.ty <;> rfl

/-- Elementwise characterization of a successful `mapM` over `Except`. -/
lemma mapM_ok {α β : Type} (g : α → Except GoErr β) :
    ∀ (l : List α) (l' : List β), l.mapM g = .ok l' →
      l'.length = l.length ∧
      ∀ i (h1 : i < l.length) (h2 : i < l'.length),
        g (l.get ⟨i, h1⟩) = .ok (l'.get ⟨i, h2⟩) := by
  intro l
  induction l with
  | nil =>
    intro l' h
    rw [List.mapM_nil] at h
    cases h
    exact ⟨rfl, fun i h1 => absurd h1 (by simp)⟩
  | cons a l ih =>
    intro l' h
    rw [List.mapM_cons] at h
    cases hga : g a with
    | error e => rw [hga] at h; simp at h
    | ok b =>
      rw [hga] at h
      simp only [exceptBindOk] at h
      cases hml : l.mapM g with
      | error e => rw [hml] at h; simp at h
      | ok bs =>
        rw [hml] at h
        simp only [exceptBindOk, exceptPure] at h
        cases h
        obtain ⟨hlen, hget⟩ := ih bs hml
        refine ⟨by simp [hlen], ?_⟩
        intro i h1 h2
        cases i with
        | zero => simpa using hga
        | succ j =>
          simpa using hget j (by simpa using h1) (by simpa [hlen] using h2)

/-- Appending attempt lists folds sequentially. -/
lemma lastOkVal_append (l₁ : List (Except GoErr GoVal)) :
    ∀ (v : GoVal) (l₂ : List (Except GoErr GoVal)),
      lastOkVal v (l₁ ++ l₂) = lastOkVal (lastOkVal v l₁) l₂ := by
  induction l₁ with
  | nil => intro v l₂; rfl
  | cons r l ih =>
    intro v l₂
    cases r with
    | ok w => rw [List.cons_append, lastOkVal, lastOkVal, ih]
    | error e => rw [List.cons_append, lastOkVal, lastOkVal, ih]

/-- When every attempt succeeded, the folded value is the last attempt's
value when there is one, and the start value otherwise. -/
lemma lastOkVal_stageVal :
    ∀ (l : List (Except GoErr GoVal)) (v : GoVal),
      (∀ r ∈ l, ∃ w, r = .ok w) →
      lastOkVal v l = (stageVal l).getD v ∧ (l ≠ [] → (stageVal l).isSome) := by
  intro l
  induction l with
  | nil => exact fun v _ => ⟨rfl, fun h => absurd rfl h⟩
  | cons r rest ih =>
    intro v h
    obtain ⟨w, rfl⟩ := h r (List.mem_cons_self ..)
    have hrest := fun x hx => h x (List.mem_cons_of_mem _ hx)
    rw [lastOkVal]
    cases rest with
    | nil => exact ⟨rfl, fun _ => rfl⟩
    | cons r2 t =>
      have hih := ih w hrest
      have hsome := hih.2 (by simp)
      obtain ⟨u, hu⟩ := Option.isSome_iff_exists.mp hsome
      have hcc : stageVal (.ok w :: r2 :: t) = stageVal (r2 :: t) := by
        rw [stageVal, stageVal, List.getLast?_cons_cons]
      refine ⟨?_, fun _ => by rw [hcc]; exact hsome⟩
      rw [hih.1, hcc, hu]
      rfl

/-- The identity stage (a disabled source) satisfies the empty
characterization. -/
lemma stageChar_pure (l : List field) :
    stageChar (fun _ => ([] : List (Except GoErr GoVal))) l l := by
  refine ⟨rfl, fun i h1 h2 => ⟨by simp, ?_⟩⟩
  rw [lastOkVal]
  rfl

/-- Composing two stages concatenates their attempt lists, provided the
second stage's attempts ignore the field's value. -/
lemma stageChar_comp (A B : field → List (Except GoErr GoVal))
    (l₁ l₂ l₃ : List field)
    (hB : ∀ f v, B (updateVal f v) = B f)
    (h₁ : stageChar A l₁ l₂) (h₂ : stageChar B l₂ l₃) :
    stageChar (fun f => A f ++ B f) l₁ l₃ := by
  obtain ⟨hlen₁, hget₁⟩ := h₁
  obtain ⟨hlen₂, hget₂⟩ := h₂
  refine ⟨hlen₂.trans hlen₁, fun i h1 h3 => ?_⟩
  have h2 : i < l₂.length := by omega
  obtain ⟨hok₁, hv₁⟩ := hget₁ i h1 h2
  obtain ⟨hok₂, hv₂⟩ := hget₂ i h2 h3
  rw [hv₁] at hok₂ hv₂
  rw [hB] at hok₂ hv₂
  constructor
  · intro r hr
    rcases List.mem_append.mp hr with hm | hm
    · exact hok₁ r hm
    · exact hok₂ r hm
  · rw [hv₂, lastOkVal_append]
    rfl

/-- A successful `readEnv` satisfies the env-stage characterization. -/
lemma readEnv_stageChar (config : EnvConfig) (vars : List (String × String))
    (l₁ l₂ : List field) (h : readEnv l₁ config vars = .ok l₂) :
    stageChar (envAttempts config vars) l₁ l₂ := by
  obtain ⟨hlen, hget⟩ := mapM_ok (readEnvField config vars) l₁ l₂ h
  refine ⟨hlen, fun i h1 h2 => ?_⟩
  have hi := hget i h1 h2
  rw [readEnvField_applyLoop] at hi
  exact applyLoop_ok (gEnv vars) _ _ _ hi

/-- A successful `readPFlags` satisfies the flag-stage characterization. -/
lemma readPFlags_stageChar (config : FlagsConfig) (args : List String)
    (l₁ l₂ : List field) (h : readPFlags l₁ config args = .ok l₂) :
    stageChar (flagAttempts config (flagValue (registeredNames l₁ config) args)) l₁ l₂ := by
  obtain ⟨hlen, hget⟩ :=
    mapM_ok (applyFlagsField config (flagValue (registeredNames l₁ config) args)) l₁ l₂ h
  refine ⟨hlen, fun i h1 h2 => ?_⟩
  have hi := hget i h1 h2
  rw [applyFlagsField_applyLoop] at hi
  exact applyLoop_ok (gFlag _) _ _ _ hi

/-- A successful `readFileMap` satisfies the one-map characterization. -/
lemma readFileMap_stageChar (separator : String) (m : FileVal)
    (l₁ l₂ : List field) (h : readFileMap l₁ separator m = .ok l₂) :
    stageChar (fileAttempts separator m) l₁ l₂ := by
  obtain ⟨hlen, hget⟩ := mapM_ok (readFileMapField separator m) l₁ l₂ h
  refine ⟨hlen, fun i h1 h2 => ?_⟩
  have hi := hget i h1 h2
  rw [readFileMapField_applyLoop] at hi
  exact applyLoop_ok (gFile separator m) _ _ _ hi

/-- A successful files stage satisfies the concatenated characterization
over the decoded maps in order. -/
lemma readFilesMaps_stageChar (config : FilesConfig) :
    ∀ (maps : List FileVal) (l₁ l₂ : List field),
      readFilesMaps l₁ config maps = .ok l₂ →
      stageChar (filesAttempts config maps) l₁ l₂ := by
  intro maps
  induction maps with
  | nil =>
    intro l₁ l₂ h
    rw [readFilesMaps, List.foldlM_nil] at h
    cases h
    simpa [filesAttempts] using stageChar_pure l₁
  | cons m rest ih =>
    intro l₁ l₂ h
    rw [readFilesMaps, List.foldlM_cons] at h
    cases hm : readFileMap l₁ config.Separator m with
    | error e => rw [hm] at h; simp at h
    | ok mid =>
      rw [hm] at h
      simp only [exceptBindOk] at h
      have h₁ := readFileMap_stageChar config.Separator m l₁ mid hm
      have h₂ := ih mid l₂ h
      have := stageChar_comp (fileAttempts config.Separator m)
        (filesAttempts config rest) l₁ mid l₂ (fun f v => rfl) h₁ h₂
      simpa [filesAttempts] using this

/-- Fields updated in place keep their registered flag names. -/
lemma registeredNames_congr (config : FlagsConfig) (l₁ l₂ : List field)
    (hlen : l₂.length = l₁.length)
    (h : ∀ i (h1 : i < l₁.length) (h2 : i < l₂.length),
      ∃ v, l₂.get ⟨i, h2⟩ = updateVal (l₁.get ⟨i, h1⟩) v) :
    registeredNames l₂ config = registeredNames l₁ config := by
  rw [registeredNames, registeredNames]
  congr 1
  apply List.ext_get (by simpa using hlen)
  intro n h1 h2
  simp only [List.get_eq_getElem, List.getElem_map]
  obtain ⟨v, hv⟩ := h n (by simpa using h2) (by simpa using h1)
  rw [List.get_eq_getElem] at hv
  rw [hv]
  rfl

/-- C1: after a successful full merge (`Collector.Get`), every field's
final value is the one supplied by the highest-precedence enabled source
that set it, in the fixed order defaults < files < environment variables
< command-line flags; a field set by no enabled source retains the
caller's preset value. The right-hand side `specMergedValue` is written
from the specification's words. -/
theorem collector_get_precedence (c : Collector) (fields fields' : List field)
    (maps : List FileVal) (vars : List (String × String)) (args : List String)
    (hok : Collector.Get c fields maps vars args = .ok fields') :
    fields'.length = fields.length ∧
    ∀ i (h1 : i < fields.length) (h2 : i < fields'.length),
      (fields'.get ⟨i, h2⟩).Value =
        specMergedValue c maps vars args (registeredNames fields c.Flags)
          (fields.get ⟨i, h1⟩) := by
  rw [Collector.Get] at hok
  cases hs1 : (if c.Files.Disabled then pure fields
      else readFilesMaps fields c.Files maps : Except GoErr (List field)) with
  | error e => rw [hs1] at hok; simp at hok
  | ok fs₁ =>
  rw [hs1] at hok
  simp only [exceptBindOk] at hok
  cases hs2 : (if c.Env.Disabled then pure fs₁
      else readEnv fs₁ c.Env vars : Except GoErr (List field)) with
  | error e => rw [hs2] at hok; simp at hok
  | ok fs₂ =>
  rw [hs2] at hok
  simp only [exceptBindOk] at hok
  -- stage characterizations, each with the disabled case folded in
  have S1 : stageChar
      (fun f => if c.Files.Disabled then [] else filesAttempts c.Files maps f)
      fields fs₁ := by
    by_cases hF : c.Files.Disabled
    · rw [if_pos hF] at hs1
      cases hs1
      simpa [hF] using stageChar_pure fields
    · rw [if_neg hF] at hs1
      simpa [hF] using readFilesMaps_stageChar c.Files maps fields fs₁ hs1
  have S2 : stageChar
      (fun f => if c.Env.Disabled then [] else envAttempts c.Env vars f)
      fs₁ fs₂ := by
    by_cases hE : c.Env.Disabled
    · rw [if_pos hE] at hs2
      cases hs2
      simpa [hE] using stageChar_pure fs₁
    · rw [if_neg hE] at hs2
      simpa [hE] using readEnv_stageChar c.Env vars fs₁ fs₂ hs2
  have S12 := stageChar_comp _ _ fields fs₁ fs₂ (fun f v => by by_cases hE : c.Env.Disabled <;> simp [hE, envAttempts, envNames, distinctEnvName, field.fullName, attemptsOf, updateVal]) S1 S2
  have hreg : registeredNames fs₂ c.Flags = registeredNames fields c.Flags := by
    refine registeredNames_congr c.Flags fields fs₂ S12.1 fun i h1 h2 => ?_
    exact ⟨_, (S12.2 i h1 h2).2⟩
  have S3 : stageChar
      (fun f => if c.Flags.Disabled then []
        else flagAttempts c.Flags (flagValue (registeredNames fields c.Flags) args) f)
      fs₂ fields' := by
    by_cases hG : c.Flags.Disabled
    · rw [if_pos hG] at hok
      cases hok
      simpa [hG] using stageChar_pure _
    · rw [if_neg hG] at hok
      have := readPFlags_stageChar c.Flags args fs₂ fields' hok
      rw [hreg] at this
      simpa [hG] using this
  have ST := stageChar_comp _ _ fields fs₂ fields'
    (fun f v => by by_cases hG : c.Flags.Disabled <;>
      simp [hG, flagAttempts, longFlagName, field.fullName, attemptsOf, updateVal]) S12 S3
  obtain ⟨hlen, hget⟩ := ST
  refine ⟨hlen, fun i h1 h2 => ?_⟩
  obtain ⟨hok3, hval⟩ := hget i h1 h2
  have hv : (fields'.get ⟨i, h2⟩).Value =
      lastOkVal (fields.get ⟨i, h1⟩).Value
        (((if c.Files.Disabled then []
            else filesAttempts c.Files maps (fields.get ⟨i, h1⟩)) ++
          (if c.Env.Disabled then []
            else envAttempts c.Env vars (fields.get ⟨i, h1⟩))) ++
          (if c.Flags.Disabled then []
            else flagAttempts c.Flags (flagValue (registeredNames fields c.Flags) args)
              (fields.get ⟨i, h1⟩))) := by
    rw [hval]
    rfl
  have hok1 : ∀ r ∈ (if c.Files.Disabled then []
      else filesAttempts c.Files maps (fields.get ⟨i, h1⟩)), ∃ w, r = .ok w :=
    fun r hr => hok3 r (List.mem_append_left _ (List.mem_append_left _ hr))
  have hok2 : ∀ r ∈ (if c.Env.Disabled then []
      else envAttempts c.Env vars (fields.get ⟨i, h1⟩)), ∃ w, r = .ok w :=
    fun r hr => hok3 r (List.mem_append_left _ (List.mem_append_right _ hr))
  have hok4 : ∀ r ∈ (if c.Flags.Disabled then []
      else flagAttempts c.Flags (flagValue (registeredNames fields c.Flags) args)
        (fields.get ⟨i, h1⟩)), ∃ w, r = .ok w :=
    fun r hr => hok3 r (List.mem_append_right _ hr)
  rw [hv, lastOkVal_append, lastOkVal_append,
    (lastOkVal_stageVal _ _ hok1).1,
    (lastOkVal_stageVal _ _ hok2).1,
    (lastOkVal_stageVal _ _ hok4).1]
  rfl

/-- Witness for `collector_get_precedence`: a field reachable from all
three sources (file value 8080, env value 8081, flag value 9090) ends at
the flag value, and the spec-side merged value agrees. -/
theorem collector_get_precedence_witness :
    Collector.Get demoCollector [mergePortField] [.fmap [("Port", .int 8080)]]
      [("PORT", "8081")] ["--port=9090"] =
      .ok [updateVal mergePortField (.vint 64 9090)] ∧
    (updateVal mergePortField (.vint 64 9090)).Value =
      specMergedValue demoCollector [.fmap [("Port", .int 8080)]]
        [("PORT", "8081")] ["--port=9090"]
        (registeredNames [mergePortField] demoCollector.Flags) mergePortField := by
  have hok : Collector.Get demoCollector [mergePortField] [.fmap [("Port", .int 8080)]]
      [("PORT", "8081")] ["--port=9090"] =
      .ok [updateVal mergePortField (.vint 64 9090)] := by decide
  refine ⟨hok, ?_⟩
  exact (collector_get_precedence demoCollector [mergePortField]
    [updateVal mergePortField (.vint 64 9090)] [.fmap [("Port", .int 8080)]]
    [("PORT", "8081")] ["--port=9090"] hok).2 0 (by decide) (by decide)

end Alligotor
